import Mathlib

/-!
Verification development for the Brusselator FFT analysis pipeline
(`src/Tutorial/brusselator/src/analysis/fft3d_calc.cpp`).

The C++ program is shallowly embedded below: command-line handling, the
step-driver loop over the input stream, the first-step setup (FFTW
allocation reconciliation check and output-variable definitions), the
buffer staging loops feeding FFTW, and the per-step write section.  The
decomposition helper `get_starts_counts_3d_decomp` lives in
`decompose_utils.h`, which is not part of the repository sources; it is
modelled from the specification where needed.
-/

namespace FFT3D

/-! ## Command-line handling (fft3d_calc.cpp lines 59-77) -/

/-- Result of the argument-handling prologue of `main`: whether only the
FFT outputs are written (`output_fft_only`), whether the process group was
aborted for lack of arguments, and how many diagnostic messages were
printed on the way. -/
structure CliResult where
  output_fft_only : Bool
  aborted : Bool
  diagnostics : Nat
  deriving Repr, DecidableEq

/-- Embedding of fft3d_calc.cpp lines 59-77: with fewer than three
arguments the program prints usage and aborts; otherwise the flag
`output_fft_only` starts `true` and is set to `false` exactly when a
fourth argument exists and compares equal to the literal string "0".
`argv` includes the program name at position 0, so `argc >= 4` is
`argv.length >= 4`, i.e. `argv.get? 3` is `some`. -/
def parse_cli (argv : List String) : CliResult :=
  if argv.length < 3 then
    { output_fft_only := true, aborted := true, diagnostics := 1 }
  else
    match argv.get? 3 with
    | some s =>
        if s = "0" then
          { output_fft_only := false, aborted := false, diagnostics := 0 }
        else
          { output_fft_only := true, aborted := false, diagnostics := 0 }
    | none => { output_fft_only := true, aborted := false, diagnostics := 0 }

/-! ## Per-step write section (fft3d_calc.cpp lines 319-330) -/

/-- The names passed to `writer_engine.Put` in one output step, in program
order: the four FFT outputs always, then the four mirrored input fields
when `output_fft_only` is false (lines 320-329). -/
def stepPuts (output_fft_only : Bool) : List String :=
  ["u_fft_real", "u_fft_imag", "v_fft_real", "v_fft_imag"] ++
    (if output_fft_only then [] else ["u_real", "u_imag", "v_real", "v_imag"])

/-! ## The step-driver loop (fft3d_calc.cpp lines 120-135, 334-340) -/

/-- Status returned by `reader_engine.BeginStep`. -/
inductive StepStatus where
  | OK
  | NotReady
  | EndOfStream
  | OtherError
  deriving Repr, DecidableEq

/-- Observable actions of the driver, in program order. -/
inductive Event where
  | slept (ms : Nat)
  | processedStep (n : Nat)
  | definedOutputVars
  | closedReader
  | closedWriter
  | freedWorkspace
  | destroyedPlan
  deriving Repr, DecidableEq

/-- The backoff interval of the NotReady branch, milliseconds
(fft3d_calc.cpp line 127). -/
def backoffMs : Nat := 1000

/-- The `while(true)` loop of `main` (lines 120-331), driven by the
sequence of statuses the transport returns from successive `BeginStep`
calls.  On `NotReady` the driver sleeps `backoffMs` and retries; on any
other non-OK status it breaks out of the loop; on `OK` it increments
`step_num`, performs the first-step setup (output variable definitions)
once, and processes the step.  Returns the events emitted and the final
`step_num`. -/
def driverLoop : List StepStatus → Bool → Nat → List Event × Nat
  | [], _, n => ([], n)
  | status :: rest, firstStep, n =>
    match status with
    | .NotReady =>
        let r := driverLoop rest firstStep n
        (.slept backoffMs :: r.1, r.2)
    | .OK =>
        let here : List Event :=
          if firstStep then [.processedStep (n + 1), .definedOutputVars]
          else [.processedStep (n + 1)]
        let r := driverLoop rest false (n + 1)
        (here ++ r.1, r.2)
    | _ => ([], n)

/-- A whole run of `main`'s streaming part: the loop starting with
`firstStep = true` and `step_num = 0`, followed by the cleanup section
(lines 334-340): close reader, close writer, free the FFTW buffers,
destroy the plan. -/
def driverRun (statuses : List StepStatus) : List Event × Nat :=
  let r := driverLoop statuses true 0
  (r.1 ++ [.closedReader, .closedWriter, .freedWorkspace, .destroyedPlan], r.2)

/-- Whether an event is a backoff sleep. -/
def Event.isSleep : Event → Bool
  | .slept _ => true
  | _ => false

/-- Whether an event is the one-time output-variable definition. -/
def Event.isDefine : Event → Bool
  | .definedOutputVars => true
  | _ => false

/-! ## Decomposition Calculator (decompose_utils.h, called at lines 154-155) -/

/-- Modelled from the spec: `get_starts_counts_3d_decomp` is declared in
`decompose_utils.h`, which is not among the repository sources; only its
call sites (fft3d_calc.cpp lines 154-155) are.  The spec (section 4.1)
describes it as a balanced block decomposition of dimension 0: every
rank's count is `d0 / P` plus one unit of the remainder, the remainder
going to the low-numbered ranks.  This is the per-rank count. -/
def decompCount (d0 P r : Nat) : Nat :=
  d0 / P + (if r < d0 % P then 1 else 0)

/-- Modelled from the spec: the per-rank start along dimension 0, the
exclusive prefix sum of `decompCount` in rank order, in closed form. -/
def decompStart (d0 P r : Nat) : Nat :=
  r * (d0 / P) + min r (d0 % P)

/-- Modelled from the spec: `get_starts_counts_3d_decomp (d0, d1, d2,
starts, counts, P, r)` fills the two 3-element arrays: dimension 0 is
block-decomposed, dimensions 1 and 2 are fully owned by every rank
(start 0, full extent).  Returned as `(starts, counts)`. -/
def get_starts_counts_3d_decomp (d0 d1 d2 P r : Nat) : List Nat × List Nat :=
  ([decompStart d0 P r, 0, 0], [decompCount d0 P r, d1, d2])

/-! ## First-step setup: reconciliation check (fft3d_calc.cpp lines 172-203) -/

/-- Outcome of the first-step setup block guarded by `if (firstStep)`:
whether the FFTW-vs-decomposition size mismatch message was printed
(lines 181-185), whether that branch aborted the process group, and
whether the null-allocation check aborted (lines 187-190). -/
structure FirstStepOutcome where
  mismatchErrorLogged : Bool
  abortedAtMismatch : Bool
  abortedAtAlloc : Bool
  deriving Repr, DecidableEq

/-- Embedding of fft3d_calc.cpp lines 181-190.  The mismatch branch
(`alloc_local != (d0*d1*d2)/comm_size`) contains only the `fprintf`; the
`MPI_Abort` on line 184 is commented out in the source, so
`abortedAtMismatch` is constantly `false` and the run continues past a
detected mismatch.  The null-allocation branch does abort. -/
def firstStepCheck (d0 d1 d2 comm_size alloc_local : Nat)
    (inIsNull outIsNull : Bool) : FirstStepOutcome :=
  { mismatchErrorLogged := alloc_local != d0 * d1 * d2 / comm_size,
    abortedAtMismatch := false,
    abortedAtAlloc := inIsNull || outIsNull }

/-! ## Output-variable definitions (fft3d_calc.cpp lines 200-240) -/

/-- The local FFTW row count, fft3d_calc.cpp line 200:
`x_dim = alloc_local/shape_u_real[1]/shape_u_real[2]`. -/
def x_dim_of (alloc_local d1 d2 : Nat) : Nat :=
  alloc_local / d1 / d2

/-- The per-rank `x_dim` values across the process group, each rank
deriving its own from the `alloc_local` FFTW reported to it. -/
def x_dims_of (d1 d2 : Nat) (allocs : List Nat) : List Nat :=
  allocs.map (fun a => x_dim_of a d1 d2)

/-- Embedding of fft3d_calc.cpp lines 201-202: `MPI_Scan(MPI_SUM)` gives
rank `r` the inclusive prefix sum of `x_dim` over ranks `0..r`, and the
code then subtracts its own `x_dim`, leaving the exclusive prefix sum. -/
def x_off_of (d1 d2 : Nat) (allocs : List Nat) (r : Nat) : Nat :=
  ((x_dims_of d1 d2 allocs).take (r + 1)).sum -
    (x_dims_of d1 d2 allocs).getD r 0

/-- One `writer_io.DefineVariable` call: name, global shape, per-rank
offset (`Start`), per-rank extent (`Count`). -/
structure VarDef where
  name : String
  shape : List Nat
  start : List Nat
  count : List Nat
  deriving Repr, DecidableEq

/-- Embedding of fft3d_calc.cpp lines 205-221: the four FFT output
variables, each a flattened 1-D variable of global length
`shape_u[0]*shape_u[1]*shape_u[2]`, per-rank offset
`x_off*shape_u[1]*shape_u[2]`, per-rank extent `alloc_local`. -/
def fftVarDefs (d0 d1 d2 x_off alloc_local : Nat) : List VarDef :=
  [⟨"u_fft_real", [d0 * d1 * d2], [x_off * d1 * d2], [alloc_local]⟩,
   ⟨"u_fft_imag", [d0 * d1 * d2], [x_off * d1 * d2], [alloc_local]⟩,
   ⟨"v_fft_real", [d0 * d1 * d2], [x_off * d1 * d2], [alloc_local]⟩,
   ⟨"v_fft_imag", [d0 * d1 * d2], [x_off * d1 * d2], [alloc_local]⟩]

/-- Embedding of fft3d_calc.cpp lines 224-239: the four mirrored
passthrough variables, defined only when `output_fft_only` is false.
The u pair uses `shape_u_real` as global shape and the v pair
`shape_v_real`; all four use offset `{x_off, 0, 0}` and extent
`{x_dim, shape_u_real[1], shape_u_real[2]}` from the FFTW row
distribution. -/
def passthroughVarDefs (d0 d1 d2 dv0 dv1 dv2 x_off x_dim : Nat) : List VarDef :=
  [⟨"u_real", [d0, d1, d2], [x_off, 0, 0], [x_dim, d1, d2]⟩,
   ⟨"u_imag", [d0, d1, d2], [x_off, 0, 0], [x_dim, d1, d2]⟩,
   ⟨"v_real", [dv0, dv1, dv2], [x_off, 0, 0], [x_dim, d1, d2]⟩,
   ⟨"v_imag", [dv0, dv1, dv2], [x_off, 0, 0], [x_dim, d1, d2]⟩]

/-- All `DefineVariable` calls made in the first-step block
(fft3d_calc.cpp lines 205-240) on the rank whose FFTW allocation is
`allocs.getD r 0`: the four FFT outputs always, the four passthrough
mirrors only when `output_fft_only` is false. -/
def firstStepDefines (d0 d1 d2 dv0 dv1 dv2 : Nat) (allocs : List Nat)
    (r : Nat) (output_fft_only : Bool) : List VarDef :=
  let alloc_local := allocs.getD r 0
  let xd := x_dim_of alloc_local d1 d2
  let xo := x_off_of d1 d2 allocs r
  fftVarDefs d0 d1 d2 xo alloc_local ++
    (if output_fft_only then []
     else passthroughVarDefs d0 d1 d2 dv0 dv1 dv2 xo xd)

/-! ## Buffer staging (fft3d_calc.cpp lines 270-281, 287-291) -/

/-- Embedding of the stage-in triple loop (fft3d_calc.cpp lines 270-281
for u, 295-306 for v): for `i < x_dim`, `j < d1`, `k < d2`, with
`idx = i*d1*d2 + j*d2 + k`, set `in[idx][0] = real[idx]` and
`in[idx][1] = imag[idx]`.  The complex workspace is a function from flat
index to (real, imaginary) component pair; entries outside the loop
range keep their previous contents. -/
def stageIn (d1 d2 x_dim : Nat) (real imag : Nat → Int)
    (buf : Nat → Int × Int) : Nat → Int × Int :=
  (List.range x_dim).foldl (fun b i =>
    (List.range d1).foldl (fun b j =>
      (List.range d2).foldl (fun b k =>
        Function.update b (i * d1 * d2 + j * d2 + k)
          (real (i * d1 * d2 + j * d2 + k), imag (i * d1 * d2 + j * d2 + k)))
        b)
      b)
    buf

/-- Embedding of the stage-out flat loop (fft3d_calc.cpp lines 287-291
for u, 312-316 for v): for `i < alloc_local`, set
`fft_real[i] = out[i][0]` and `fft_imag[i] = out[i][1]`.  The two output
arrays are returned as a pair of functions. -/
def stageOut (alloc_local : Nat) (buf : Nat → Int × Int)
    (re0 im0 : Nat → Int) : (Nat → Int) × (Nat → Int) :=
  ((List.range alloc_local).foldl (fun a i => Function.update a i (buf i).1) re0,
   (List.range alloc_local).foldl (fun a i => Function.update a i (buf i).2) im0)

/-! ## Pointwise characterization of the staging loops -/

/-- A flat loop of updates `a[i] := v i` for `i < n`, read back at `idx`. -/
lemma foldl_update_range {α : Type} (n : Nat) (v : Nat → α) (b : Nat → α) (idx : Nat) :
    (List.range n).foldl (fun a i => Function.update a i (v i)) b idx
      = if idx < n then v idx else b idx := by
  induction n with
  | zero =>
      simp only [List.range_zero, List.foldl_nil]
      rw [if_neg (by omega)]
  | succ m ih =>
      rw [List.range_succ, List.foldl_append]
      simp only [List.foldl_cons, List.foldl_nil]
      rw [Function.update_apply]
      by_cases h : idx = m
      · rw [if_pos h, h, if_pos (by omega)]
      · rw [if_neg h, ih]
        by_cases h2 : idx < m
        · rw [if_pos h2, if_pos (by omega)]
        · rw [if_neg h2, if_neg (by omega)]

/-- The innermost stage-in loop over `k`: writes to the contiguous run of
flat indices `i*d1*d2 + j*d2 + k` for `k < m`. -/
lemma stageIn_line (d1 d2 i j m : Nat) (real imag : Nat → Int)
    (b : Nat → Int × Int) (idx : Nat) :
    (List.range m).foldl (fun a k =>
        Function.update a (i * d1 * d2 + j * d2 + k)
          (real (i * d1 * d2 + j * d2 + k), imag (i * d1 * d2 + j * d2 + k))) b idx
      = if i * d1 * d2 + j * d2 ≤ idx ∧ idx < i * d1 * d2 + j * d2 + m
        then (real idx, imag idx) else b idx := by
  induction m with
  | zero =>
      simp only [List.range_zero, List.foldl_nil]
      rw [if_neg (by omega)]
  | succ m ih =>
      rw [List.range_succ, List.foldl_append]
      simp only [List.foldl_cons, List.foldl_nil]
      rw [Function.update_apply]
      by_cases h : idx = i * d1 * d2 + j * d2 + m
      · rw [if_pos h, h, if_pos (by omega)]
      · rw [if_neg h, ih]
        by_cases h2 : i * d1 * d2 + j * d2 ≤ idx ∧ idx < i * d1 * d2 + j * d2 + m
        · rw [if_pos h2, if_pos (by omega)]
        · rw [if_neg h2, if_neg (by omega)]

/-- The middle stage-in loop over `j`: writes to the contiguous run of
flat indices `[i*d1*d2, i*d1*d2 + mj*d2)`. -/
lemma stageIn_plane (d1 d2 i mj : Nat) (real imag : Nat → Int)
    (b : Nat → Int × Int) (idx : Nat) :
    (List.range mj).foldl (fun a j =>
        (List.range d2).foldl (fun a k =>
          Function.update a (i * d1 * d2 + j * d2 + k)
            (real (i * d1 * d2 + j * d2 + k), imag (i * d1 * d2 + j * d2 + k))) a) b idx
      = if i * d1 * d2 ≤ idx ∧ idx < i * d1 * d2 + mj * d2
        then (real idx, imag idx) else b idx := by
  induction mj with
  | zero =>
      simp only [List.range_zero, List.foldl_nil]
      rw [if_neg (by omega)]
  | succ m ih =>
      rw [List.range_succ, List.foldl_append]
      simp only [List.foldl_cons, List.foldl_nil]
      rw [stageIn_line, ih]
      have hm : i * d1 * d2 + (m + 1) * d2 = i * d1 * d2 + m * d2 + d2 := by ring
      rw [hm]
      by_cases h1 : i * d1 * d2 ≤ idx ∧ idx < i * d1 * d2 + m * d2
      · rw [if_pos h1]
        rw [if_neg (by omega), if_pos (by omega)]
      · rw [if_neg h1]
        by_cases h2 : i * d1 * d2 + m * d2 ≤ idx ∧ idx < i * d1 * d2 + m * d2 + d2
        · rw [if_pos h2, if_pos (by omega)]
        · rw [if_neg h2, if_neg (by omega)]

/-- Pointwise behaviour of the stage-in triple loop: flat indices below
`x_dim*d1*d2` receive the (real, imaginary) pair of the fields at that
index; all other workspace entries are untouched. -/
lemma stageIn_apply (d1 d2 xd : Nat) (real imag : Nat → Int)
    (buf : Nat → Int × Int) (idx : Nat) :
    stageIn d1 d2 xd real imag buf idx
      = if idx < xd * d1 * d2 then (real idx, imag idx) else buf idx := by
  induction xd with
  | zero =>
      simp only [stageIn, List.range_zero, List.foldl_nil]
      rw [if_neg (by omega)]
  | succ m ih =>
      simp only [stageIn] at ih ⊢
      rw [List.range_succ, List.foldl_append]
      simp only [List.foldl_cons, List.foldl_nil]
      rw [stageIn_plane, ih]
      have hm : (m + 1) * d1 * d2 = m * d1 * d2 + d1 * d2 := by ring
      rw [hm]
      by_cases h1 : m * d1 * d2 ≤ idx ∧ idx < m * d1 * d2 + d1 * d2
      · rw [if_pos h1, if_pos (by omega)]
      · rw [if_neg h1]
        by_cases h2 : idx < m * d1 * d2
        · rw [if_pos h2, if_pos (by omega)]
        · rw [if_neg h2, if_neg (by omega)]

/-- Pointwise behaviour of the stage-out flat loop, real component. -/
lemma stageOut_fst_apply (alloc_local : Nat) (buf : Nat → Int × Int)
    (re0 im0 : Nat → Int) (idx : Nat) :
    (stageOut alloc_local buf re0 im0).1 idx
      = if idx < alloc_local then (buf idx).1 else re0 idx :=
  foldl_update_range alloc_local (fun i => (buf i).1) re0 idx

/-- Pointwise behaviour of the stage-out flat loop, imaginary component. -/
lemma stageOut_snd_apply (alloc_local : Nat) (buf : Nat → Int × Int)
    (re0 im0 : Nat → Int) (idx : Nat) :
    (stageOut alloc_local buf re0 im0).2 idx
      = if idx < alloc_local then (buf idx).2 else im0 idx :=
  foldl_update_range alloc_local (fun i => (buf i).2) im0 idx

/-- The flat index of a point of the local slab lies below the slab's
flattened size. -/
lemma flat_idx_lt (d1 d2 xd i j k : Nat) (hi : i < xd) (hj : j < d1) (hk : k < d2) :
    i * d1 * d2 + j * d2 + k < xd * d1 * d2 := by
  have h1 : j * d2 + k < d1 * d2 := by
    have h2 : j * d2 + k < (j + 1) * d2 := by
      have : (j + 1) * d2 = j * d2 + d2 := by ring
      omega
    have h3 : (j + 1) * d2 ≤ d1 * d2 := Nat.mul_le_mul_right d2 hj
    omega
  have h4 : i * d1 * d2 + d1 * d2 ≤ xd * d1 * d2 := by
    have h5 : (i + 1) * d1 * d2 ≤ xd * d1 * d2 :=
      Nat.mul_le_mul_right d2 (Nat.mul_le_mul_right d1 hi)
    have h6 : (i + 1) * d1 * d2 = i * d1 * d2 + d1 * d2 := by ring
    omega
  omega

/-- The flattened local slab `x_dim*d1*d2` fits inside the FFTW
allocation it was derived from. -/
lemma x_dim_mul_le (alloc_local d1 d2 : Nat) :
    x_dim_of alloc_local d1 d2 * d1 * d2 ≤ alloc_local := by
  have h1 : x_dim_of alloc_local d1 d2 = alloc_local / (d1 * d2) := by
    simp [x_dim_of, Nat.div_div_eq_div_mul]
  have h2 : alloc_local / (d1 * d2) * (d1 * d2) ≤ alloc_local :=
    Nat.div_mul_le_self alloc_local (d1 * d2)
  calc x_dim_of alloc_local d1 d2 * d1 * d2
      = alloc_local / (d1 * d2) * (d1 * d2) := by rw [h1, Nat.mul_assoc]
    _ ≤ alloc_local := h2

/-! ## Driver-loop lemmas -/

/-- A run of `k` NotReady statuses produces exactly `k` backoff sleeps
and leaves the step counter unchanged. -/
lemma driverLoop_notReady (k : Nat) (fs : Bool) (n : Nat) :
    driverLoop (List.replicate k .NotReady) fs n
      = (List.replicate k (.slept backoffMs), n) := by
  induction k with
  | zero => rfl
  | succ m ih =>
      simp only [List.replicate_succ, driverLoop, ih]

/-- A run of `k` NotReady statuses followed by OK: `k` sleeps, then the
single step-processing burst, and the counter advances exactly once. -/
lemma driverLoop_notReady_then_ok (k : Nat) (fs : Bool) (n : Nat) :
    driverLoop (List.replicate k .NotReady ++ [.OK]) fs n
      = (List.replicate k (.slept backoffMs)
          ++ (if fs then [.processedStep (n + 1), .definedOutputVars]
              else [.processedStep (n + 1)]), n + 1) := by
  induction k with
  | zero =>
      cases fs <;> rfl
  | succ m ih =>
      simp only [List.replicate_succ, List.cons_append, driverLoop, List.append_eq]
      rw [ih]

/-- The events of processing `N` consecutive OK steps starting from step
counter `n`, with `firstStep` state `fs`. -/
def okEventsFrom : Nat → Bool → Nat → List Event
  | 0, _, _ => []
  | N + 1, fs, n =>
      (if fs then [.processedStep (n + 1), .definedOutputVars]
       else [.processedStep (n + 1)])
        ++ okEventsFrom N false (n + 1)

/-- `N` consecutive OK statuses process steps `n+1 .. n+N`. -/
lemma driverLoop_ok (N : Nat) (fs : Bool) (n : Nat) :
    driverLoop (List.replicate N .OK) fs n = (okEventsFrom N fs n, n + N) := by
  induction N generalizing fs n with
  | zero => rfl
  | succ m ih =>
      simp only [List.replicate_succ, driverLoop, okEventsFrom, List.append_eq]
      rw [ih]
      have hn : n + 1 + m = n + (m + 1) := by omega
      rw [hn]

/-- A terminal (non-OK, non-NotReady) status breaks the loop: whatever
follows it is never looked at, no retry and no further step. -/
lemma driverLoop_ok_then_terminal (N : Nat) (fs : Bool) (n : Nat)
    (term : StepStatus) (rest : List StepStatus)
    (h : term = .EndOfStream ∨ term = .OtherError) :
    driverLoop (List.replicate N .OK ++ term :: rest) fs n
      = (okEventsFrom N fs n, n + N) := by
  induction N generalizing fs n with
  | zero =>
      rcases h with h | h <;> subst h <;> simp [driverLoop, okEventsFrom]
  | succ m ih =>
      simp only [List.replicate_succ, List.cons_append, driverLoop, okEventsFrom,
        List.append_eq]
      rw [ih]
      have hn : n + 1 + m = n + (m + 1) := by omega
      rw [hn]

/-- Exactly the step numbers `n+1 .. n+N` appear as processed-step
events in `okEventsFrom N fs n`. -/
lemma processedStep_mem_okEventsFrom (N : Nat) (fs : Bool) (n i : Nat) :
    Event.processedStep i ∈ okEventsFrom N fs n ↔ n < i ∧ i ≤ n + N := by
  induction N generalizing fs n with
  | zero => simp [okEventsFrom]
  | succ m ih =>
      cases fs <;> simp [okEventsFrom, ih] <;> omega

/-- The output-variable definition block runs at most once per run: with
`firstStep` already consumed it never runs again. -/
lemma countDefine_driverLoop (sts : List StepStatus) (fs : Bool) (n : Nat) :
    (driverLoop sts fs n).1.countP Event.isDefine ≤ if fs then 1 else 0 := by
  induction sts generalizing fs n with
  | nil => cases fs <;> simp [driverLoop]
  | cons st rest ih =>
      cases st with
      | NotReady =>
          have h := ih fs n
          cases fs <;>
            simp_all [driverLoop, List.countP_cons, Event.isDefine]
      | OK =>
          have h := ih false (n + 1)
          cases fs <;>
            simp_all [driverLoop, List.countP_append, List.countP_cons,
              Event.isDefine]
      | EndOfStream => cases fs <;> simp [driverLoop]
      | OtherError => cases fs <;> simp [driverLoop]

/-- On a run whose first status is OK, the definition block runs exactly
once. -/
lemma countDefine_first_ok (sts : List StepStatus) (n : Nat) :
    (driverLoop (.OK :: sts) true n).1.countP Event.isDefine = 1 := by
  have h := countDefine_driverLoop sts false (n + 1)
  simp only [if_neg (Bool.false_ne_true), Nat.le_zero] at h
  simp [driverLoop, List.countP_append, List.countP_cons, Event.isDefine, h]

/-! ## Decomposition arithmetic -/

/-- Closed form of the prefix sums of the per-rank counts. -/
lemma decomp_prefix_sum (d0 P k : Nat) :
    ((List.range k).map (fun r => decompCount d0 P r)).sum
      = k * (d0 / P) + min k (d0 % P) := by
  induction k with
  | zero => simp
  | succ m ih =>
      rw [List.range_succ, List.map_append, List.sum_append]
      simp only [List.map_cons, List.map_nil, List.sum_cons, List.sum_nil]
      rw [ih]
      unfold decompCount
      have hmin : min (m + 1) (d0 % P) = min m (d0 % P) + (if m < d0 % P then 1 else 0) := by
        simp only [Nat.min_def]
        split_ifs <;> omega
      have hmul : (m + 1) * (d0 / P) = m * (d0 / P) + d0 / P := by ring
      rw [hmin, hmul]
      split_ifs <;> omega

/-- The counts of all `P` ranks sum to `d0`. -/
lemma decomp_sum_counts (d0 P : Nat) (hP : 0 < P) :
    ((List.range P).map (fun r => decompCount d0 P r)).sum = d0 := by
  rw [decomp_prefix_sum]
  have hlt : d0 % P < P := Nat.mod_lt d0 hP
  have hmin : min P (d0 % P) = d0 % P := by omega
  rw [hmin]
  have := Nat.div_add_mod d0 P
  have hcomm : P * (d0 / P) = d0 / P * P := Nat.mul_comm _ _
  omega

/-- Each start is the exclusive prefix sum of the counts. -/
lemma decomp_start_eq_prefix_sum (d0 P r : Nat) :
    decompStart d0 P r = ((List.range r).map (fun s => decompCount d0 P s)).sum := by
  rw [decomp_prefix_sum]; rfl

/-- Consecutive slabs are adjacent: each start is the previous start
plus the previous count. -/
lemma decomp_start_succ (d0 P r : Nat) :
    decompStart d0 P (r + 1) = decompStart d0 P r + decompCount d0 P r := by
  unfold decompStart decompCount
  have hmin : min (r + 1) (d0 % P) = min r (d0 % P) + (if r < d0 % P then 1 else 0) := by
    simp only [Nat.min_def]
    split_ifs <;> omega
  have hmul : (r + 1) * (d0 / P) = r * (d0 / P) + d0 / P := by ring
  rw [hmin, hmul]
  split_ifs <;> omega

/-- The last slab ends exactly at `d0`. -/
lemma decomp_last_end (d0 P : Nat) (hP : 0 < P) :
    decompStart d0 P (P - 1) + decompCount d0 P (P - 1) = d0 := by
  have h1 : decompStart d0 P (P - 1) + decompCount d0 P (P - 1)
      = decompStart d0 P ((P - 1) + 1) := (decomp_start_succ d0 P (P - 1)).symm
  have h2 : (P - 1) + 1 = P := by omega
  rw [h1, h2]
  unfold decompStart
  have hlt : d0 % P < P := Nat.mod_lt d0 hP
  have hmin : min P (d0 % P) = d0 % P := by omega
  rw [hmin]
  have := Nat.div_add_mod d0 P
  have hcomm : P * (d0 / P) = d0 / P * P := Nat.mul_comm _ _
  omega

/-! ## MPI_Scan exclusive prefix sum -/

/-- Subtracting a rank's own `x_dim` from its inclusive `MPI_Scan`
result yields the exclusive prefix sum of the `x_dim` values of the
lower ranks. -/
lemma x_off_eq_excl_sum (d1 d2 : Nat) (allocs : List Nat) (r : Nat)
    (h : r < allocs.length) :
    x_off_of d1 d2 allocs r = ((x_dims_of d1 d2 allocs).take r).sum := by
  unfold x_off_of
  have hlen : r < (x_dims_of d1 d2 allocs).length := by
    simpa [x_dims_of] using h
  have hget : (x_dims_of d1 d2 allocs)[r]?
      = some ((x_dims_of d1 d2 allocs)[r]) := List.getElem?_eq_getElem hlen
  rw [List.take_succ, List.sum_append, List.getD_eq_getElem?_getD, hget]
  simp

/-! ## Claims -/

/-- C1: for every global extent `d0` and process-group size `P` with
`0 < P ≤ d0`, the per-rank (start, count) pairs of the Decomposition
Calculator along dimension 0 satisfy: the counts summed over all ranks
equal `d0`; each rank's start is the exclusive prefix sum of the counts
of lower ranks; every count is within 1 of `d0/P` (and positive); and
the slabs tile `[0, d0)` exactly: rank 0 starts at 0, every next start
abuts the previous slab, and the last slab ends at `d0`. -/
theorem claim_C1 (d0 d1 d2 P r : Nat) (hP : 0 < P) (hPd : P ≤ d0) (_hr : r < P) :
    (get_starts_counts_3d_decomp d0 d1 d2 P r
        = ([decompStart d0 P r, 0, 0], [decompCount d0 P r, d1, d2]))
    ∧ ((List.range P).map (fun s => decompCount d0 P s)).sum = d0
    ∧ decompStart d0 P r = ((List.range r).map (fun s => decompCount d0 P s)).sum
    ∧ d0 / P ≤ decompCount d0 P r
    ∧ decompCount d0 P r ≤ d0 / P + 1
    ∧ 1 ≤ decompCount d0 P r
    ∧ decompStart d0 P 0 = 0
    ∧ decompStart d0 P (r + 1) = decompStart d0 P r + decompCount d0 P r
    ∧ decompStart d0 P (P - 1) + decompCount d0 P (P - 1) = d0 := by
  refine ⟨rfl, decomp_sum_counts d0 P hP, decomp_start_eq_prefix_sum d0 P r,
    ?_, ?_, ?_, ?_, decomp_start_succ d0 P r, decomp_last_end d0 P hP⟩
  · unfold decompCount; split_ifs <;> omega
  · unfold decompCount; split_ifs <;> omega
  · have hq : 0 < d0 / P := Nat.div_pos hPd hP
    unfold decompCount; split_ifs <;> omega
  · unfold decompStart; simp

/-- Witness for C1 at `d0 = 9`, `P = 2`, rank 1 (the spec's uneven
Scenario B). -/
theorem claim_C1_witness :
    (0 < 2 ∧ 2 ≤ 9 ∧ 1 < 2)
    ∧ (get_starts_counts_3d_decomp 9 4 4 2 1
        = ([decompStart 9 2 1, 0, 0], [decompCount 9 2 1, 4, 4])) :=
  ⟨⟨by decide, by decide, by decide⟩,
    (claim_C1 9 4 4 2 1 (by decide) (by decide) (by decide)).1⟩

/-- C2: the claim says a first-step `alloc_local` differing from
`(d0*d1*d2)/P` is treated as fatal and aborts the process group.  The
code detects the mismatch and prints the error (whose text even says
"Exiting."), but the `MPI_Abort` on that branch is commented out, so the
run continues: at shape (4,4,4), `comm_size = 2` and `alloc_local = 33`
(expected 32) the mismatch is logged yet nothing aborts, and the second
conjunct shows the mismatch branch can never abort on any input. -/
theorem claim_C2_mismatch_not_fatal :
    firstStepCheck 4 4 4 2 33 false false
      = { mismatchErrorLogged := true, abortedAtMismatch := false,
          abortedAtAlloc := false }
    ∧ ∀ d0 d1 d2 P al i o,
        (firstStepCheck d0 d1 d2 P al i o).abortedAtMismatch = false :=
  ⟨rfl, fun _ _ _ _ _ _ _ => rfl⟩

/-- C3 (counterexample): at global shape (7,1,1) over 3 ranks, rank 2,
with the transform library reporting per-rank allocations [3,3,1] (its
block distribution, rows in blocks of ⌈7/3⌉ = 3), the passthrough
variables are defined with offset row 6 and extent 1 row — the
transform's `x_off`/`x_dim` — while the Decomposition Calculator's slab
for rank 2 is start 5, count 2.  So the claim that the passthrough
offsets/extents are derived from the Decomposition Calculator's slab is
false. -/
theorem claim_C3_counterexample :
    ¬ (∀ vd ∈ (firstStepDefines 7 1 1 7 1 1 [3, 3, 1] 2 false).drop 4,
        vd.start = (get_starts_counts_3d_decomp 7 1 1 3 2).1
        ∧ vd.count = (get_starts_counts_3d_decomp 7 1 1 3 2).2) := by
  decide

/-- C3 (amended): when passthrough is enabled (third CLI argument is the
literal "0"), the four mirrored variables u_real, u_imag, v_real,
v_imag are defined with per-rank offset `(x_off, 0, 0)` and extent
`(x_dim, d1, d2)` taken from the transform library's row distribution —
`x_off` being the exclusive prefix sum over ranks of the per-rank
`x_dim` derived from the library's `alloc_local` — not from the
Decomposition Calculator's slab. -/
theorem claim_C3 (d0 d1 d2 dv0 dv1 dv2 : Nat) (allocs : List Nat) (r : Nat)
    (h : r < allocs.length) (p a b : String) :
    (parse_cli [p, a, b, "0"]).output_fft_only = false
    ∧ ((firstStepDefines d0 d1 d2 dv0 dv1 dv2 allocs r
          (parse_cli [p, a, b, "0"]).output_fft_only).drop 4).map VarDef.name
        = ["u_real", "u_imag", "v_real", "v_imag"]
    ∧ ∀ vd ∈ (firstStepDefines d0 d1 d2 dv0 dv1 dv2 allocs r
          (parse_cli [p, a, b, "0"]).output_fft_only).drop 4,
        vd.start = [((x_dims_of d1 d2 allocs).take r).sum, 0, 0]
        ∧ vd.count = [x_dim_of (allocs.getD r 0) d1 d2, d1, d2] := by
  have hflag : (parse_cli [p, a, b, "0"]).output_fft_only = false := rfl
  rw [hflag]
  refine ⟨rfl, ?_, ?_⟩
  · simp [firstStepDefines, fftVarDefs, passthroughVarDefs]
  · intro vd hvd
    have hxo : x_off_of d1 d2 allocs r = ((x_dims_of d1 d2 allocs).take r).sum :=
      x_off_eq_excl_sum d1 d2 allocs r h
    simp only [firstStepDefines, fftVarDefs, passthroughVarDefs,
      if_neg (Bool.false_ne_true)] at hvd
    simp only [List.append_assoc, List.cons_append, List.nil_append] at hvd
    rw [show (4 : Nat) = 0 + 1 + 1 + 1 + 1 by rfl] at hvd
    simp [List.drop] at hvd
    rcases hvd with h1 | h1 | h1 | h1 <;> subst h1 <;> exact ⟨by rw [hxo], by simp⟩

/-- Witness for C3 at the counterexample's configuration. -/
theorem claim_C3_witness :
    (2 < List.length ([3, 3, 1] : List Nat))
    ∧ (parse_cli ["analysis", "in.bp", "out.bp", "0"]).output_fft_only = false :=
  ⟨by decide,
    (claim_C3 7 1 1 7 1 1 [3, 3, 1] 2 (by decide) "analysis" "in.bp" "out.bp").1⟩

/-- C4: after `k` consecutive NotReady statuses followed by OK, the
driver has slept the fixed 1000 ms backoff exactly `k` times (one sleep
per NotReady, and no step event among them), and the step counter has
advanced exactly once, from `n` to `n + 1`; on NotReady alone the
counter never advances. -/
theorem claim_C4 (k n : Nat) (fs : Bool) :
    driverLoop (List.replicate k .NotReady ++ [.OK]) fs n
        = (List.replicate k (.slept backoffMs)
            ++ (if fs then [.processedStep (n + 1), .definedOutputVars]
                else [.processedStep (n + 1)]), n + 1)
    ∧ driverLoop (List.replicate k .NotReady) fs n
        = (List.replicate k (.slept backoffMs), n)
    ∧ backoffMs = 1000 :=
  ⟨driverLoop_notReady_then_ok k fs n, driverLoop_notReady k fs n, rfl⟩

/-- C5: staging a pair of fields into the complex workspace and staging
back (stage-out composed with stage-in) reproduces both fields exactly
at every index (i,j,k) of the local slab, at flat index
`i*d1*d2 + j*d2 + k`, with `x_dim` derived from the allocation as in the
source. -/
theorem claim_C5 (d1 d2 alloc_local : Nat) (f g : Nat → Int)
    (buf : Nat → Int × Int) (re0 im0 : Nat → Int) (i j k : Nat)
    (hi : i < x_dim_of alloc_local d1 d2) (hj : j < d1) (hk : k < d2) :
    (stageOut alloc_local
        (stageIn d1 d2 (x_dim_of alloc_local d1 d2) f g buf) re0 im0).1
        (i * d1 * d2 + j * d2 + k) = f (i * d1 * d2 + j * d2 + k)
    ∧ (stageOut alloc_local
        (stageIn d1 d2 (x_dim_of alloc_local d1 d2) f g buf) re0 im0).2
        (i * d1 * d2 + j * d2 + k) = g (i * d1 * d2 + j * d2 + k) := by
  have hslab := flat_idx_lt d1 d2 (x_dim_of alloc_local d1 d2) i j k hi hj hk
  have halloc : i * d1 * d2 + j * d2 + k < alloc_local :=
    lt_of_lt_of_le hslab (x_dim_mul_le alloc_local d1 d2)
  constructor
  · rw [stageOut_fst_apply, if_pos halloc, stageIn_apply, if_pos hslab]
  · rw [stageOut_snd_apply, if_pos halloc, stageIn_apply, if_pos hslab]

/-- Witness for C5: a 2×2×2 slab (`alloc_local = 8`) at the last corner
point (1,1,1). -/
theorem claim_C5_witness :
    (1 < x_dim_of 8 2 2 ∧ 1 < 2 ∧ 1 < 2)
    ∧ (stageOut 8
          (stageIn 2 2 (x_dim_of 8 2 2) (fun n => (n : Int))
            (fun n => (2 * n + 1 : Int)) (fun _ => (0, 0)))
          (fun _ => 0) (fun _ => 0)).1 (1 * 2 * 2 + 1 * 2 + 1)
        = (fun n => (n : Int)) (1 * 2 * 2 + 1 * 2 + 1) :=
  ⟨⟨by decide, by decide, by decide⟩,
    (claim_C5 2 2 8 (fun n => (n : Int)) (fun n => (2 * n + 1 : Int))
      (fun _ => (0, 0)) (fun _ => 0) (fun _ => 0) 1 1 1
      (by decide) (by decide) (by decide)).1⟩

/-- C6: the stage-in loop copies element (i,j,k) of the real and
imaginary fields into the workspace at flat index `i*d1*d2 + j*d2 + k`
(real into component 0, imaginary into component 1), covering exactly
the local slab `(x_dim, d1, d2)`: every flat index at or beyond
`x_dim*d1*d2` (those with `i ≥ x_dim`) is left untouched.  The fields
are arbitrary, so this holds for the u pair and the v pair alike in
every step. -/
theorem claim_C6 (d1 d2 xd : Nat) (realF imagF : Nat → Int)
    (buf : Nat → Int × Int) (i j k : Nat)
    (hi : i < xd) (hj : j < d1) (hk : k < d2) :
    stageIn d1 d2 xd realF imagF buf (i * d1 * d2 + j * d2 + k)
        = (realF (i * d1 * d2 + j * d2 + k), imagF (i * d1 * d2 + j * d2 + k))
    ∧ ∀ idx, xd * d1 * d2 ≤ idx → stageIn d1 d2 xd realF imagF buf idx = buf idx := by
  constructor
  · rw [stageIn_apply, if_pos (flat_idx_lt d1 d2 xd i j k hi hj hk)]
  · intro idx hidx
    rw [stageIn_apply, if_neg (by omega)]

/-- Witness for C6 on a 2×2×2 slab at point (1,0,1). -/
theorem claim_C6_witness :
    (1 < 2 ∧ 0 < 2 ∧ 1 < 2)
    ∧ stageIn 2 2 2 (fun n => (n : Int)) (fun n => (3 * n : Int))
        (fun _ => (0, 0)) (1 * 2 * 2 + 0 * 2 + 1)
        = ((fun n => (n : Int)) (1 * 2 * 2 + 0 * 2 + 1),
           (fun n => (3 * n : Int)) (1 * 2 * 2 + 0 * 2 + 1)) :=
  ⟨⟨by decide, by decide, by decide⟩,
    (claim_C6 2 2 2 (fun n => (n : Int)) (fun n => (3 * n : Int))
      (fun _ => (0, 0)) 1 0 1 (by decide) (by decide) (by decide)).1⟩

/-- C7: with no third CLI argument exactly 4 variables are written per
step; with the third argument equal to the literal "0" exactly 8 are. -/
theorem claim_C7 (p a b : String) :
    (stepPuts (parse_cli [p, a, b]).output_fft_only).length = 4
    ∧ (stepPuts (parse_cli [p, a, b, "0"]).output_fft_only).length = 8 :=
  ⟨rfl, rfl⟩

/-- C8: the four FFT output variables are defined exactly once per run
(the define block runs exactly once, on the first OK step, and never
again), each as a flattened 1-D variable of global length `d0*d1*d2`,
with per-rank offset `x_off*d1*d2` — where `x_off` is the exclusive
prefix sum over ranks of the per-rank `x_dim = alloc_local/(d1*d2)`
reported by the transform library, obtained by the collective scan —
and per-rank extent `alloc_local`. -/
theorem claim_C8 (d0 d1 d2 : Nat) (allocs : List Nat) (r : Nat)
    (h : r < allocs.length) (sts : List StepStatus) (n : Nat) (fs : Bool) :
    ((driverLoop (.OK :: sts) true n).1.countP Event.isDefine = 1)
    ∧ ((driverLoop sts fs n).1.countP Event.isDefine ≤ 1)
    ∧ x_off_of d1 d2 allocs r = ((x_dims_of d1 d2 allocs).take r).sum
    ∧ x_dim_of (allocs.getD r 0) d1 d2 = allocs.getD r 0 / (d1 * d2)
    ∧ (fftVarDefs d0 d1 d2 (x_off_of d1 d2 allocs r) (allocs.getD r 0)).map VarDef.name
        = ["u_fft_real", "u_fft_imag", "v_fft_real", "v_fft_imag"]
    ∧ ∀ vd ∈ fftVarDefs d0 d1 d2 (x_off_of d1 d2 allocs r) (allocs.getD r 0),
        vd.shape = [d0 * d1 * d2]
        ∧ vd.start = [x_off_of d1 d2 allocs r * d1 * d2]
        ∧ vd.count = [allocs.getD r 0] := by
  refine ⟨countDefine_first_ok sts n, ?_,
    x_off_eq_excl_sum d1 d2 allocs r h, ?_, rfl, ?_⟩
  · have h2 := countDefine_driverLoop sts fs n
    have h3 : (if fs then 1 else 0) ≤ 1 := by cases fs <;> simp
    exact le_trans h2 h3
  · simp [x_dim_of, Nat.div_div_eq_div_mul]
  · intro vd hvd
    simp only [fftVarDefs, List.mem_cons, List.not_mem_nil, or_false] at hvd
    rcases hvd with h1 | h1 | h1 | h1 <;> subst h1 <;> exact ⟨rfl, rfl, rfl⟩

/-- Witness for C8: two ranks with allocations [8, 8], rank 1. -/
theorem claim_C8_witness :
    (1 < List.length ([8, 8] : List Nat))
    ∧ (driverLoop (.OK :: ([] : List StepStatus)) true 0).1.countP Event.isDefine = 1 :=
  ⟨by decide, (claim_C8 4 2 2 [8, 8] 1 (by decide) [] 0 false).1⟩

/-- C9: when BeginStep returns a terminal non-OK, non-NotReady status
(EndOfStream or an error) after `N` successful steps, the driver
processes exactly steps 1..N, then leaves the loop without error — the
run is identical no matter what would follow the terminal status, so it
never retries — and closes the reader, closes the writer, frees the
FFTW workspace and destroys the plan. -/
theorem claim_C9 (N : Nat) (term : StepStatus) (rest : List StepStatus)
    (h : term = .EndOfStream ∨ term = .OtherError) :
    driverRun (List.replicate N .OK ++ term :: rest)
        = (okEventsFrom N true 0
            ++ [.closedReader, .closedWriter, .freedWorkspace, .destroyedPlan], N)
    ∧ driverRun (List.replicate N .OK ++ term :: rest)
        = driverRun (List.replicate N .OK ++ [term])
    ∧ (∀ i, Event.processedStep i
          ∈ (driverRun (List.replicate N .OK ++ term :: rest)).1
        ↔ 1 ≤ i ∧ i ≤ N) := by
  have h1 := driverLoop_ok_then_terminal N true 0 term rest h
  have h2 := driverLoop_ok_then_terminal N true 0 term [] h
  refine ⟨?_, ?_, ?_⟩
  · simp [driverRun, h1]
  · simp [driverRun, h1, h2]
  · intro i
    simp [driverRun, h1, processedStep_mem_okEventsFrom]
    omega

/-- Witness for C9: EndOfStream after 2 OK steps, with a further status
behind it that is never examined. -/
theorem claim_C9_witness :
    (StepStatus.EndOfStream = StepStatus.EndOfStream
      ∨ StepStatus.EndOfStream = StepStatus.OtherError)
    ∧ driverRun (List.replicate 2 .OK ++ .EndOfStream :: [.OK])
        = (okEventsFrom 2 true 0
            ++ [.closedReader, .closedWriter, .freedWorkspace, .destroyedPlan], 2) :=
  ⟨Or.inl rfl, (claim_C9 2 .EndOfStream [.OK] (Or.inl rfl)).1⟩

/-- C10: any third CLI argument other than the literal "0" leaves
passthrough disabled exactly as if the argument were absent — the parse
result is identical, no diagnostic is printed and nothing aborts — and
only 4 variables are written per step. -/
theorem claim_C10 (p a b s : String) (h : s ≠ "0") :
    parse_cli [p, a, b, s]
        = { output_fft_only := true, aborted := false, diagnostics := 0 }
    ∧ parse_cli [p, a, b, s] = parse_cli [p, a, b]
    ∧ (stepPuts (parse_cli [p, a, b, s]).output_fft_only).length = 4 := by
  have h1 : parse_cli [p, a, b, s]
      = { output_fft_only := true, aborted := false, diagnostics := 0 } := by
    simp [parse_cli, h]
  exact ⟨h1, by rw [h1]; rfl, by rw [h1]; rfl⟩

/-- Witness for C10 at the unrecognized value "1". -/
theorem claim_C10_witness :
    ("1" : String) ≠ "0"
    ∧ parse_cli ["analysis", "a.bp", "b.bp", "1"]
        = { output_fft_only := true, aborted := false, diagnostics := 0 } :=
  ⟨by decide, (claim_C10 "analysis" "a.bp" "b.bp" "1" (by decide)).1⟩

end FFT3D
